import Mathlib

/-!
Verification development for the taxtools statement-ingestion pipeline.

Text is modelled as `List Char` (`Str`), mirroring Python string operations
character by character.  Each definition is a shallow embedding of the
correspondingly-named function in the repository:

* `splitSlash`       — Python `s.split('/')`
* `search8`/`searchAlt` — the two `re.search` patterns of
  `StatementIngestionAgent.process_directory`
* `search4`          — the `re.search` pattern of
  `StatementIngestionAgent._save_json_response`
* `validateStatementData` — pydantic validation of `StatementData`
  (`src/schemas/statement_parser.py`), collecting all field errors.
  Note: pydantic's `Field(..., enum=[...])` keyword is JSON-schema metadata
  only and performs no validation, so `tax_category` is checked for type
  (string) only; the seven-category list never constrains the value.
* `normalizeTxDate`, `derivedFilename`, `saveJsonName`, `extractIdentity`
  — the pure string manipulations of `_process_json_data`,
  `_save_json_response` and `process_directory`.
-/

namespace TaxTools

abbrev Str := List Char

def strOf (s : String) : Str := s.data

/-- Python `s.split('/')`: splits at every `'/'`; `"".split('/') = ['']`. -/
def splitSlash : Str → List Str
  | [] => [[]]
  | c :: rest =>
    if c = '/' then [] :: splitSlash rest
    else
      match splitSlash rest with
      | p :: ps => (c :: p) :: ps
      | [] => [[c]]

/-- Python `parts[-1]` (on the nonempty result of `split`). -/
def lastD (l : List Str) : Str := l.getLastD []

/-- Python `parts[0]` (on the nonempty result of `split`). -/
def headD (l : List Str) : Str := l.headD []

/-- Python `s[-4:]`. -/
def lastFour (s : Str) : Str := s.drop (s.length - 4)

theorem splitSlash_ne_nil (s : Str) : splitSlash s ≠ [] := by
  induction s with
  | nil => simp [splitSlash]
  | cons c rest ih =>
    simp only [splitSlash]
    split
    · simp
    · cases h : splitSlash rest with
      | nil => simp
      | cons p ps => simp

theorem splitSlash_noSlash (s : Str) (h : '/' ∉ s) : splitSlash s = [s] := by
  induction s with
  | nil => rfl
  | cons c rest ih =>
    simp only [List.mem_cons, not_or] at h
    simp only [splitSlash]
    rw [if_neg (fun hc => h.1 hc.symm)]
    rw [ih h.2]

theorem splitSlash_append (a b : Str) (hb : '/' ∉ b) :
    splitSlash (a ++ '/' :: b) = splitSlash a ++ [b] := by
  induction a with
  | nil =>
    simp only [List.nil_append, splitSlash, if_pos rfl]
    rw [splitSlash_noSlash b hb]
    rfl
  | cons c rest ih =>
    by_cases hc : c = '/'
    · subst hc
      simp only [List.cons_append, splitSlash, if_pos rfl, List.append_eq]
      rw [ih]
      rfl
    · simp only [List.cons_append, splitSlash, if_neg hc, List.append_eq]
      rw [ih]
      cases h : splitSlash rest with
      | nil => exact absurd h (splitSlash_ne_nil rest)
      | cons p ps => rfl

theorem length_splitSlash_eq_two_mem (d : Str) (h : (splitSlash d).length = 2) :
    '/' ∈ d := by
  by_contra hn
  rw [splitSlash_noSlash d hn] at h
  simp at h

/-- Month part `MM` of the transaction-date regex `(0[1-9]|1[0-2])`. -/
def monthOk (a b : Char) : Bool :=
  (a = '0' && b.isDigit && b ≠ '0') || (a = '1' && (b = '0' || b = '1' || b = '2'))

/-- Day part `DD` of the transaction-date regex `(0[1-9]|[12]\d|3[01])`. -/
def dayOk (a b : Char) : Bool :=
  (a = '0' && b.isDigit && b ≠ '0') || ((a = '1' || a = '2') && b.isDigit) ||
    (a = '3' && (b = '0' || b = '1'))

/-- Optional `(/\d{4})?$` tail of the transaction-date regex. -/
def yearOptOk : Str → Bool
  | [] => true
  | '/' :: y1 :: y2 :: y3 :: y4 :: [] => y1.isDigit && y2.isDigit && y3.isDigit && y4.isDigit
  | _ => false

/-- pydantic pattern `^(0[1-9]|1[0-2])/(0[1-9]|[12]\d|3[01])(/\d{4})?$`. -/
def datePatternOk : Str → Bool
  | m1 :: m2 :: '/' :: d1 :: d2 :: rest => monthOk m1 m2 && dayOk d1 d2 && yearOptOk rest
  | _ => false

/-- Character class of the description pattern
`^[a-zA-Z0-9\s\-\:\.\#\/\(\)\,\*\_\[\]]+$` (ASCII whitespace for `\s`). -/
def descCharOk (c : Char) : Bool :=
  c.isAlphanum || c = ' ' || c = '\t' || c = '\n' || c = '\r' ||
    c = '\x0b' || c = '\x0c' ||
    c = '-' || c = ':' || c = '.' || c = '#' || c = '/' || c = '(' || c = ')' ||
    c = ',' || c = '*' || c = '_' || c = '[' || c = ']'

def descPatternOk (s : Str) : Bool := !s.isEmpty && s.all descCharOk

structure RawDeposit where
  date : Str
  description : Str
  amount : Rat
deriving DecidableEq, Repr

structure RawWithdrawal where
  date : Str
  description : Str
  amount : Rat
  tax_category : Str
deriving DecidableEq, Repr

/-- The raw `dict` handed to `_process_json_data`; `Option` marks keys that
may be absent. -/
structure RawData where
  account_number : Option Str := none
  statement_date : Option Str := none
  period_start : Option Str := none
  period_end : Option Str := none
  beginning_balance : Option Rat := none
  ending_balance : Option Rat := none
  total_fees : Option Rat := none
  filename : Option Str := none
  important_notes : Option Str := none
  deposits : List RawDeposit := []
  withdrawals : List RawWithdrawal := []
deriving DecidableEq, Repr

inductive FieldErr where
  | missing (field : String)
  | badPattern (coll : String) (index : Nat) (sub : String)
  | notPositive (coll : String) (index : Nat)
deriving DecidableEq, Repr

/-- pydantic validation of one `DepositTransaction`. -/
def validateDeposit (i : Nat) (t : RawDeposit) : List FieldErr :=
  (if datePatternOk t.date then [] else [.badPattern "deposits" i "date"]) ++
  (if descPatternOk t.description then [] else [.badPattern "deposits" i "description"]) ++
  (if 0 < t.amount then [] else [.notPositive "deposits" i])

/-- pydantic validation of one `WithdrawalTransaction`.  `tax_category` is a
plain required `str`; the `enum=[...]` keyword of `Field` adds JSON-schema
metadata only, so no check on its value is performed. -/
def validateWithdrawal (i : Nat) (t : RawWithdrawal) : List FieldErr :=
  (if datePatternOk t.date then [] else [.badPattern "withdrawals" i "date"]) ++
  (if descPatternOk t.description then [] else [.badPattern "withdrawals" i "description"]) ++
  (if 0 < t.amount then [] else [.notPositive "withdrawals" i])

def requiredErr (field : String) : Option α → List FieldErr
  | some _ => []
  | none => [.missing field]

/-- pydantic validation of `StatementData`, collecting all violations. -/
def validateStatementData (d : RawData) : List FieldErr :=
  requiredErr "account_number" d.account_number ++
  requiredErr "statement_date" d.statement_date ++
  requiredErr "period_start" d.period_start ++
  requiredErr "period_end" d.period_end ++
  requiredErr "beginning_balance" d.beginning_balance ++
  requiredErr "ending_balance" d.ending_balance ++
  requiredErr "total_fees" d.total_fees ++
  requiredErr "filename" d.filename ++
  (d.deposits.enum.map (fun p => validateDeposit p.1 p.2)).flatten ++
  (d.withdrawals.enum.map (fun p => validateWithdrawal p.1 p.2)).flatten

/-- The fully-typed value produced when validation succeeds. -/
structure ParsedStatement where
  account_number : Str
  statement_date : Str
  period_start : Str
  period_end : Str
  beginning_balance : Rat
  ending_balance : Rat
  total_fees : Rat
  filename : Str
  important_notes : Str
  deposits : List RawDeposit
  withdrawals : List RawWithdrawal
deriving DecidableEq, Repr

def parseStatementData (d : RawData) : Except (List FieldErr) ParsedStatement :=
  match validateStatementData d with
  | [] => .ok
      { account_number := d.account_number.getD []
        statement_date := d.statement_date.getD []
        period_start := d.period_start.getD []
        period_end := d.period_end.getD []
        beginning_balance := d.beginning_balance.getD 0
        ending_balance := d.ending_balance.getD 0
        total_fees := d.total_fees.getD 0
        filename := d.filename.getD []
        important_notes := d.important_notes.getD []
        deposits := d.deposits
        withdrawals := d.withdrawals }
  | errs => .error errs

/-- Match an exact run of `n` digits at the head, returning it and the rest. -/
def matchDigits : Nat → Str → Option (Str × Str)
  | 0, s => some ([], s)
  | _ + 1, [] => none
  | n + 1, c :: rest =>
    if c.isDigit then
      (matchDigits n rest).map (fun p => (c :: p.1, p.2))
    else none

/-- Match a literal at the head, returning the rest. -/
def dropLit : Str → Str → Option Str
  | [], s => some s
  | _ :: _, [] => none
  | p :: ps, c :: cs => if p = c then dropLit ps cs else none

/-- Model of `re.search`: try the position matcher at each start position, leftmost wins. -/
def searchPos (f : Str → Option α) : Str → Option α
  | [] => f []
  | c :: rest =>
    match f (c :: rest) with
    | some x => some x
    | none => searchPos f rest

/-- One position of `re.search(r'(\d{8})-statements-(\d{4})-', name)`:
returns (8-digit date string, 4-digit suffix). -/
def matchAt8 (s : Str) : Option (Str × Str) :=
  (matchDigits 8 s).bind fun p1 =>
  (dropLit (strOf "-statements-") p1.2).bind fun r2 =>
  (matchDigits 4 r2).bind fun p2 =>
  (dropLit ['-'] p2.2).map fun _ => (p1.1, p2.1)

def search8 (s : Str) : Option (Str × Str) := searchPos matchAt8 s

/-- One position of the alternative pattern
`re.search(r'(\d{4})(\d{2})\d{2}-statements-(\d{4})-', name)`:
returns (year, month, 4-digit suffix). -/
def matchAtAlt (s : Str) : Option (Str × Str × Str) :=
  (matchDigits 4 s).bind fun py =>
  (matchDigits 2 py.2).bind fun pm =>
  (matchDigits 2 pm.2).bind fun pd =>
  (dropLit (strOf "-statements-") pd.2).bind fun r2 =>
  (matchDigits 4 r2).bind fun p2 =>
  (dropLit ['-'] p2.2).map fun _ => (py.1, pm.1, p2.1)

def searchAlt (s : Str) : Option (Str × Str × Str) := searchPos matchAtAlt s

/-- Identity extraction of `process_directory` (lines 382-395): first pattern,
then the alternative pattern, else failure.  Returns (year, month, suffix). -/
def extractIdentity (name : Str) : Option (Str × Str × Str) :=
  match search8 name with
  | some (d8, l4) => some (d8.take 4, (d8.drop 4).take 2, l4)
  | none =>
    match searchAlt name with
    | some (y, m, l4) => some (y, m, l4)
    | none => none

/-- One position of `re.search(r'(\d{4})-statements-(\d{4})-', pdf_filename)`
from `_save_json_response`: returns (year group, 4-digit suffix). -/
def matchAt4 (s : Str) : Option (Str × Str) :=
  (matchDigits 4 s).bind fun p1 =>
  (dropLit (strOf "-statements-") p1.2).bind fun r2 =>
  (matchDigits 4 r2).bind fun p2 =>
  (dropLit ['-'] p2.2).map fun _ => (p1.1, p2.1)

def search4 (s : Str) : Option (Str × Str) := searchPos matchAt4 s

/-- Python `s.replace(old, new)` (all non-overlapping occurrences, left to
right); `old` is assumed nonempty here. -/
def pyReplace (s pat rep : Str) : Str :=
  match s with
  | [] => []
  | c :: rest =>
    if h : pat ≠ [] ∧ pat.isPrefixOf (c :: rest) then
      rep ++ pyReplace ((c :: rest).drop pat.length) pat rep
    else
      c :: pyReplace rest pat rep
termination_by s.length
decreasing_by
  · simp only [List.length_drop, List.length_cons]
    have hp : 0 < pat.length := List.length_pos.mpr h.1
    omega
  · simp

/-- Artifact naming of `_save_json_response` (lines 142-152): on a regex match
the name is `(suffix)(month)(yearGroup).json`, where `yearGroup` is the first
group of `search4` and `month` is `data.get('statement_date','').split('/')[0]`;
otherwise the fallback `pdf_filename.replace('.pdf', '.json')`. -/
def saveJsonName (pdfName : Str) (statementDate : Option Str) : Str :=
  match search4 pdfName with
  | some (year, last_four) =>
    let month := headD (splitSlash (statementDate.getD []))
    last_four ++ month ++ year ++ strOf ".json"
  | none => pyReplace pdfName (strOf ".pdf") (strOf ".json")

/-- Expression `data.get('statement_date','').split('/')[-1]` of `_process_json_data`. -/
def statementYearOf (statementDate : Option Str) : Str :=
  lastD (splitSlash (statementDate.getD []))

/-- Expression `data.get('statement_date','').split('/')[0]` of `_process_json_data`. -/
def statementMonthOf (statementDate : Option Str) : Str :=
  headD (splitSlash (statementDate.getD []))

/-- The filename `_process_json_data` writes into the record:
`f"{last_four}-{statement_month}-{statement_year}.pdf"`. -/
def derivedFilename (accountNumber : Str) (statementDate : Option Str) : Str :=
  lastFour accountNumber ++ '-' :: statementMonthOf statementDate ++
    '-' :: statementYearOf statementDate ++ strOf ".pdf"

/-- Year backfill of `_process_json_data` (lines 177-186):
`if '/' in date and len(date.split('/')) == 2: date = f"{date}/{year}"`. -/
def normalizeTxDate (date year : Str) : Str :=
  if '/' ∈ date ∧ (splitSlash date).length = 2 then date ++ '/' :: year
  else date

/-- The in-place rewriting `_process_json_data` performs on the raw dict
before validation: the filename rewrite (lines 172-175, applied only when
`account_number` is a key) and the per-transaction year backfill. -/
def normalizeData (d : RawData) : RawData :=
  let year := statementYearOf d.statement_date
  let d1 :=
    match d.account_number with
    | some acct => { d with filename := some (derivedFilename acct d.statement_date) }
    | none => d
  { d1 with
    deposits := d1.deposits.map fun t => { t with date := normalizeTxDate t.date year }
    withdrawals := d1.withdrawals.map fun t => { t with date := normalizeTxDate t.date year } }

/-! ## Persistence gateway and filesystem state

`insert_statement` / `insert_deposit` / `insert_withdrawal` each run on their
own connection with `commit=True`, so every successful insert is committed
independently and a later failure cannot roll it back. -/

structure AccountRef where
  id : Nat
  company_name : Str
deriving DecidableEq, Repr

structure StmtRow where
  account_reference_id : Nat
  filename : Str
deriving DecidableEq, Repr

structure DbState where
  stmts : List StmtRow := []
  depCount : Nat := 0
  wdCount : Nat := 0
deriving DecidableEq, Repr

/-- Model of `check_statement_exists`: `SELECT EXISTS(... WHERE filename = %s)`. -/
def checkStatementExists (db : DbState) (name : Str) : Bool :=
  db.stmts.any (fun r => r.filename == name)

/-- Filesystem: the staging dir `FinancialStatements/json` and the organized
dirs `FinancialStatements/<company>/<account>/<year>/json`. -/
structure FsState where
  temp : List Str := []
  org : List (Str × Str × Str × Str) := []
deriving DecidableEq, Repr

/-- Writing a file (overwrites silently). -/
def addFile (l : List Str) (n : Str) : List Str :=
  if n ∈ l then l else l ++ [n]

/-- External collaborators and fault injection: the account table, the
extraction adapter, the two model calls (already decoded to a payload;
`none` = the call raised), per-insert outcomes, and the artifact move. -/
structure Env where
  accounts : List (Str × AccountRef) := []
  textOf : Str → Bool := fun _ => true
  primaryOf : Str → Option RawData := fun _ => none
  fallbackOf : Str → Option RawData := fun _ => none
  dataOf : Str → Option RawData := fun _ => none
  stmtInsertOk : Bool := true
  depositOk : Nat → Bool := fun _ => true
  withdrawalOk : Nat → Bool := fun _ => true
  moveOk : Bool := true

/-- Model of `fetch_account_reference`. -/
def fetchAccount (env : Env) (acct : Str) : Option AccountRef :=
  (env.accounts.find? (fun p => p.1 == acct)).map (fun p => p.2)

inductive DocErr where
  | extractionFailure
  | completionFailure
  | validationError (errs : List FieldErr)
  | accountNotFound (acct : Str)
  | dateParseError
  | persistenceFailure
deriving DecidableEq, Repr

def allDigits (s : Str) : Bool := s.all Char.isDigit

def toNatD (s : Str) : Nat := s.foldl (fun n c => n * 10 + (c.toNat - 48)) 0

def daysInMonth (m y : Nat) : Nat :=
  if m = 2 then (if (y % 4 = 0 ∧ y % 100 ≠ 0) ∨ y % 400 = 0 then 29 else 28)
  else if m = 4 ∨ m = 6 ∨ m = 9 ∨ m = 11 then 30 else 31

/-- Model of `datetime.strptime(s, "%m/%d/%Y")`: three slash-separated numeric fields
forming a valid calendar date. -/
def parseDateMDY (s : Str) : Option (Nat × Nat × Nat) :=
  match splitSlash s with
  | [m, d, y] =>
    if allDigits m ∧ allDigits d ∧ allDigits y ∧ m ≠ [] ∧ d ≠ [] ∧ y ≠ [] then
      let mn := toNatD m
      let dn := toNatD d
      let yn := toNatD y
      if 1 ≤ mn ∧ mn ≤ 12 ∧ 1 ≤ dn ∧ dn ≤ daysInMonth mn yn then some (mn, dn, yn)
      else none
    else none
  | _ => none

/-- The deposit loop of `_process_json_data`: each row is strptime-parsed and
inserted on its own committed connection; the first failure raises, leaving
earlier commits in place. -/
def insertDeposits (env : Env) : Nat → List RawDeposit → DbState → DbState × Bool
  | _, [], db => (db, true)
  | i, t :: rest, db =>
    if (parseDateMDY t.date).isSome && env.depositOk i then
      insertDeposits env (i + 1) rest { db with depCount := db.depCount + 1 }
    else (db, false)

/-- The withdrawal loop of `_process_json_data`. -/
def insertWithdrawals (env : Env) : Nat → List RawWithdrawal → DbState → DbState × Bool
  | _, [], db => (db, true)
  | i, t :: rest, db =>
    if (parseDateMDY t.date).isSome && env.withdrawalOk i then
      insertWithdrawals env (i + 1) rest { db with wdCount := db.wdCount + 1 }
    else (db, false)

/-- Model of `_process_json_data`: in-place normalization, pydantic validation, account
lookup, strptime of the three statement dates, then the three insert phases.
Returns the updated database (commits survive a raise) and the outcome. -/
def processJsonData (env : Env) (db : DbState) (d : RawData) :
    DbState × Except DocErr ParsedStatement :=
  let nd := normalizeData d
  match parseStatementData nd with
  | .error errs => (db, .error (.validationError errs))
  | .ok ps =>
    match fetchAccount env ps.account_number with
    | none => (db, .error (.accountNotFound ps.account_number))
    | some aref =>
      if (parseDateMDY ps.statement_date).isSome ∧ (parseDateMDY ps.period_start).isSome ∧
          (parseDateMDY ps.period_end).isSome then
        if env.stmtInsertOk then
          let db1 := { db with
            stmts := db.stmts ++ [{ account_reference_id := aref.id, filename := ps.filename }] }
          let r1 := insertDeposits env 0 ps.deposits db1
          if r1.2 then
            let r2 := insertWithdrawals env 0 ps.withdrawals r1.1
            if r2.2 then (r2.1, .ok ps) else (r2.1, .error .persistenceFailure)
          else (r1.1, .error .persistenceFailure)
        else (db, .error .persistenceFailure)
      else (db, .error .dateParseError)

/-- The terminal archival move (lines 101-129 of `process_statement`, same
block in `process_json_file`): resolve the destination from the raw dict and
rename; every exception is downgraded to a warning and the artifact stays in
staging.  Returns the filesystem and whether a warning was emitted. -/
def moveTarget (env : Env) (d : RawData) : Option (Str × Str × Str) :=
  match d.account_number with
  | none => none
  | some acct =>
    if acct = [] then none
    else
      match fetchAccount env acct with
      | none => none
      | some aref =>
        match d.statement_date with
        | none => none
        | some sd =>
          if sd = [] then none
          else some (aref.company_name, acct, lastD (splitSlash sd))

def tryMove (env : Env) (d : RawData) (fs : FsState) (aname : Str) : FsState × Bool :=
  match moveTarget env d with
  | some (comp, acct, yr) =>
    if env.moveOk then
      ({ temp := fs.temp.erase aname, org := fs.org ++ [(comp, acct, yr, aname)] }, false)
    else (fs, true)
  | none => (fs, true)

structure StepOut where
  db : DbState
  fs : FsState
  fallbackCalls : Nat
  outcome : Except DocErr Unit
  movedWarning : Bool
deriving Repr

/-- The completion stage of `process_statement`: primary model, on any
exception one fallback call.  Returns (fallback invocations, payload). -/
def completionResult (env : Env) (pdf : Str) : Nat × Option RawData :=
  match env.primaryOf pdf with
  | some d => (0, some d)
  | none =>
    match env.fallbackOf pdf with
    | some d => (1, some d)
    | none => (1, none)

/-- Stages of `process_statement` after a successful completion: save the
staging artifact, run `_process_json_data`, then attempt the archival move. -/
def afterCompletion (env : Env) (db : DbState) (fs : FsState) (pdf : Str)
    (d : RawData) (fb : Nat) : StepOut :=
  let aname := saveJsonName pdf d.statement_date
  let fs1 : FsState := { fs with temp := addFile fs.temp aname }
  let pr := processJsonData env db d
  match pr.2 with
  | .error e =>
    { db := pr.1, fs := fs1, fallbackCalls := fb, outcome := .error e, movedWarning := false }
  | .ok _ =>
    let mv := tryMove env d fs1 aname
    { db := pr.1, fs := mv.1, fallbackCalls := fb, outcome := .ok (), movedWarning := mv.2 }

/-- Model of `process_statement` with the completion responses supplied by `Env`. -/
def processStatement (env : Env) (db : DbState) (fs : FsState) (pdf : Str) : StepOut :=
  let cr := completionResult env pdf
  match cr.2 with
  | none =>
    { db := db, fs := fs, fallbackCalls := cr.1, outcome := .error .completionFailure,
      movedWarning := false }
  | some d => afterCompletion env db fs pdf d cr.1

inductive Status where
  | success
  | error
  | skipped
deriving DecidableEq, Repr

structure Record where
  filename : Str
  status : Status
  message : Option DocErr
deriving DecidableEq, Repr

structure DirState where
  db : DbState := {}
  fs : FsState := {}
  primaryCalls : Nat := 0
  fallbackCalls : Nat := 0
deriving Repr

/-- One iteration of the `process_directory` loop: the database-stage check
(source PDF filename), identity extraction, the JSON-artifact check
(organized dir first, then staging), text extraction, then
`process_statement`.  `none` for the record means the file was skipped with
no result entry (the code just `continue`s). -/
def processFile (env : Env) (company acct : Str) (st : DirState) (pdf : Str) :
    DirState × Option Record :=
  if checkStatementExists st.db pdf then (st, none)
  else
    match extractIdentity pdf with
    | none => (st, none)
    | some (year, month, last_four) =>
      let jsonPattern := last_four ++ month ++ year ++ strOf ".json"
      let inOrg := (company, acct, year, jsonPattern) ∈ st.fs.org
      let inTemp := jsonPattern ∈ st.fs.temp
      if inOrg ∨ inTemp then (st, none)
      else if env.textOf pdf then
        let out := processStatement env st.db st.fs pdf
        let st1 : DirState :=
          { db := out.db, fs := out.fs, primaryCalls := st.primaryCalls + 1,
            fallbackCalls := st.fallbackCalls + out.fallbackCalls }
        match out.outcome with
        | .ok _ => (st1, some { filename := pdf, status := .success, message := none })
        | .error e => (st1, some { filename := pdf, status := .error, message := some e })
      else
        (st, some { filename := pdf, status := .error, message := some .extractionFailure })

/-- Model of `process_directory` over the glob result. -/
def runDirectory (env : Env) (company acct : Str) (st : DirState) :
    List Str → DirState × List Record
  | [] => (st, [])
  | f :: rest =>
    let pr := processFile env company acct st f
    let next := runDirectory env company acct pr.1 rest
    (next.1, pr.2.toList ++ next.2)

/-- One iteration of the `process_json_directory` loop (`process_json_file`):
read the artifact, `_process_json_data`, then the move attempt; every file
yields a record. -/
def processJsonFileStep (env : Env) (st : DirState) (name : Str) : DirState × Record :=
  match env.dataOf name with
  | none => (st, { filename := name, status := .error, message := some .extractionFailure })
  | some d =>
    let pr := processJsonData env st.db d
    match pr.2 with
    | .error e =>
      ({ st with db := pr.1 }, { filename := name, status := .error, message := some e })
    | .ok _ =>
      let mv := tryMove env d st.fs name
      ({ st with db := pr.1, fs := mv.1 },
        { filename := name, status := .success, message := none })

/-- Model of `process_json_directory` over the glob result. -/
def runJsonDirectory (env : Env) (st : DirState) : List Str → DirState × List Record
  | [] => (st, [])
  | f :: rest =>
    let pr := processJsonFileStep env st f
    let next := runJsonDirectory env pr.1 rest
    (next.1, pr.2 :: next.2)

/-! ## Helper lemmas -/

theorem insertDeposits_stmts (env : Env) :
    ∀ (l : List RawDeposit) (i : Nat) (db : DbState),
      (insertDeposits env i l db).1.stmts = db.stmts := by
  intro l
  induction l with
  | nil => intro i db; rfl
  | cons t rest ih =>
    intro i db
    unfold insertDeposits
    split
    · exact ih (i + 1) _
    · rfl

theorem insertWithdrawals_stmts (env : Env) :
    ∀ (l : List RawWithdrawal) (i : Nat) (db : DbState),
      (insertWithdrawals env i l db).1.stmts = db.stmts := by
  intro l
  induction l with
  | nil => intro i db; rfl
  | cons t rest ih =>
    intro i db
    unfold insertWithdrawals
    split
    · exact ih (i + 1) _
    · rfl

theorem tryMove_moveFails (env : Env) (d : RawData) (fs : FsState) (aname : Str)
    (h : env.moveOk = false) : tryMove env d fs aname = (fs, true) := by
  unfold tryMove
  cases h2 : moveTarget env d with
  | none => rfl
  | some t =>
    obtain ⟨comp, acct, yr⟩ := t
    simp [h]

theorem mem_addFile (l : List Str) (n : Str) : n ∈ addFile l n := by
  unfold addFile
  split
  · assumption
  · simp

theorem afterCompletion_fallbackCalls (env : Env) (db : DbState) (fs : FsState)
    (pdf : Str) (d : RawData) (fb : Nat) :
    (afterCompletion env db fs pdf d fb).fallbackCalls = fb := by
  simp only [afterCompletion]
  split <;> rfl

theorem processFile_no_skipped_status (env : Env) (company acct : Str) (st : DirState)
    (pdf : Str) (st' : DirState) (r : Record)
    (h : processFile env company acct st pdf = (st', some r)) :
    r.status = .success ∨ r.status = .error := by
  simp only [processFile] at h
  split at h
  · injection h with h1 h2
    injection h2
  · split at h
    · injection h with h1 h2
      injection h2
    · split at h
      · injection h with h1 h2
        injection h2
      · split at h
        · split at h
          · injection h with h1 h2
            injection h2 with h3
            exact Or.inl (by rw [← h3])
          · injection h with h1 h2
            injection h2 with h3
            exact Or.inr (by rw [← h3])
        · injection h with h1 h2
          injection h2 with h3
          exact Or.inr (by rw [← h3])

/-- The seven categories listed in `WithdrawalTransaction.tax_category`'s
`Field(..., enum=[...])` and in `settings.VALID_TAX_CATEGORIES`. -/
def validTaxCategories : List Str :=
  [strOf "Domestic Business Expense", strOf "International Subcontractors",
   strOf "Tax Payment", strOf "Transfer", strOf "Loan Payment",
   strOf "Utility Payment", strOf "Professional Services"]

/-! ## Claim theorems -/

/-- Claim C2 (code evidence): a withdrawal whose `tax_category` is the
out-of-enumeration string "Unknown" passes pydantic validation with no error
at all — the `enum=[...]` keyword of `Field` is JSON-schema metadata and
enforces nothing — while every in-enumeration category also passes.  The
claim's required rejection of "Unknown" with a field-level `tax_category`
error does not happen. -/
theorem c2_tax_category_enum_not_enforced :
    validateWithdrawal 0
      { date := strOf "03/15/2024", description := strOf "OFFICE SUPPLIES",
        amount := 10, tax_category := strOf "Unknown" } = [] ∧
    validTaxCategories.all
      (fun cat => validateWithdrawal 0
        { date := strOf "03/15/2024", description := strOf "OFFICE SUPPLIES",
          amount := 10, tax_category := cat } == []) = true := by
  decide

/-- Claim C3 (counterexample): identity extraction is not deterministic across
the pipeline.  `process_directory` extracts year 2024 / month 03 / suffix 1234
from "20240315-statements-1234-foo.pdf", but `_save_json_response`'s pattern
`(\d{4})-statements-(\d{4})-` captures "0315" — the MMDD half of the date —
as its year group, so the artifact for the same document is named
"1234030315.json" with year token "0315" ≠ "2024". -/
theorem c3_artifact_identity_mismatch :
    extractIdentity (strOf "20240315-statements-1234-foo.pdf") =
      some (strOf "2024", strOf "03", strOf "1234") ∧
    search4 (strOf "20240315-statements-1234-foo.pdf") =
      some (strOf "0315", strOf "1234") ∧
    saveJsonName (strOf "20240315-statements-1234-foo.pdf") (some (strOf "03/31/2024")) =
      strOf "1234030315.json" ∧
    strOf "0315" ≠ strOf "2024" := by
  decide

/-- Claim C3 (amended): the directory-stage identity extraction yields
year 2024, month 03, suffix 1234 for the example filename, and a file whose
name matches neither accepted pattern is skipped by `process_directory` with
no processing at all — no completion call, no artifact, no database write, no
guessed identity (the silent fallback naming in `_save_json_response` is
unreachable for such files). -/
theorem c3_directory_extraction (env : Env) (company acct : Str) (st : DirState)
    (f : Str) (h : extractIdentity f = none) :
    extractIdentity (strOf "20240315-statements-1234-foo.pdf") =
      some (strOf "2024", strOf "03", strOf "1234") ∧
    processFile env company acct st f = (st, none) := by
  refine ⟨by decide, ?_⟩
  simp only [processFile]
  split
  · rfl
  · rw [h]

/-- Claim C3 witness: the amended theorem applied to the unmatched filename
"random.pdf". -/
theorem c3_directory_extraction_witness :
    processFile {} (strOf "Acme") (strOf "00001234") {} (strOf "random.pdf") =
      ({}, none) :=
  (c3_directory_extraction {} (strOf "Acme") (strOf "00001234") {} (strOf "random.pdf")
    (by decide)).2

/-- Claim C4: when the primary model call raises, the fallback model is
invoked exactly once; and when the fallback also raises, the document fails
with `CompletionFailure` and neither the database nor the filesystem is
touched. -/
theorem c4_fallback_once_no_db_write (env : Env) (db : DbState) (fs : FsState)
    (pdf : Str) (h : env.primaryOf pdf = none) :
    (processStatement env db fs pdf).fallbackCalls = 1 ∧
    (env.fallbackOf pdf = none →
      (processStatement env db fs pdf).db = db ∧
      (processStatement env db fs pdf).fs = fs ∧
      (processStatement env db fs pdf).outcome = Except.error DocErr.completionFailure) := by
  have hcr : completionResult env pdf = (1, env.fallbackOf pdf) := by
    unfold completionResult
    rw [h]
    cases env.fallbackOf pdf <;> rfl
  constructor
  · simp only [processStatement, hcr]
    cases hf : env.fallbackOf pdf with
    | none => rfl
    | some d => exact afterCompletion_fallbackCalls env db fs pdf d 1
  · intro hf
    simp only [processStatement, hcr, hf]
    exact ⟨trivial, trivial, trivial⟩

/-- Claim C4 witness: both model calls raising, on a concrete environment. -/
theorem c4_fallback_once_no_db_write_witness :
    (processStatement { primaryOf := fun _ => none } {} {} (strOf "a.pdf")).fallbackCalls = 1 ∧
    (processStatement { primaryOf := fun _ => none } {} {} (strOf "a.pdf")).outcome =
      Except.error DocErr.completionFailure := by
  have h := c4_fallback_once_no_db_write { primaryOf := fun _ => none } {} {} (strOf "a.pdf") rfl
  exact ⟨h.1, (h.2 rfl).2.2⟩

/-- Claim C6: the year backfill of `_process_json_data`.  A two-component
`MM/DD` date gets the statement year appended; any other shape is unchanged;
the normalization is idempotent (a second application changes nothing, i.e.
the year is appended exactly once); and inside the pipeline the backfill is
applied to every deposit and withdrawal date as part of `normalizeData`,
which runs before `parseStatementData` (schema validation). -/
theorem c6_date_normalization (d y : Str) (hy : '/' ∉ y) :
    ((splitSlash d).length = 2 → normalizeTxDate d y = d ++ '/' :: y) ∧
    ((splitSlash d).length ≠ 2 → normalizeTxDate d y = d) ∧
    normalizeTxDate (normalizeTxDate d y) y = normalizeTxDate d y ∧
    (∀ raw : RawData,
      (normalizeData raw).deposits = raw.deposits.map
        (fun t => { t with date := normalizeTxDate t.date (statementYearOf raw.statement_date) }) ∧
      (normalizeData raw).withdrawals = raw.withdrawals.map
        (fun t => { t with date := normalizeTxDate t.date (statementYearOf raw.statement_date) })) := by
  have hpos : (splitSlash d).length = 2 → normalizeTxDate d y = d ++ '/' :: y := by
    intro h2
    unfold normalizeTxDate
    rw [if_pos ⟨length_splitSlash_eq_two_mem d h2, h2⟩]
  have hneg : (splitSlash d).length ≠ 2 → normalizeTxDate d y = d := by
    intro h2
    unfold normalizeTxDate
    rw [if_neg (fun hc => h2 hc.2)]
  refine ⟨hpos, hneg, ?_, ?_⟩
  · by_cases h2 : (splitSlash d).length = 2
    · rw [hpos h2]
      unfold normalizeTxDate
      rw [if_neg ?_]
      intro hc
      have hlen := hc.2
      rw [splitSlash_append d y hy] at hlen
      simp only [List.length_append, List.length_singleton] at hlen
      omega
    · rw [hneg h2, hneg h2]
  · intro raw
    cases hacc : raw.account_number <;>
      simp [normalizeData, hacc, statementYearOf]

/-- Claim C6 witness: "03/15" under statement_date "03/31/2024" normalizes to
"03/15/2024", and "03/15/2024" is left unchanged. -/
theorem c6_date_normalization_witness :
    normalizeTxDate (strOf "03/15") (statementYearOf (some (strOf "03/31/2024"))) =
      strOf "03/15/2024" ∧
    normalizeTxDate (strOf "03/15/2024") (statementYearOf (some (strOf "03/31/2024"))) =
      strOf "03/15/2024" := by
  constructor
  · have h := (c6_date_normalization (strOf "03/15")
      (statementYearOf (some (strOf "03/31/2024"))) (by decide)).1 (by decide)
    exact h.trans (by decide)
  · exact (c6_date_normalization (strOf "03/15/2024")
      (statementYearOf (some (strOf "03/31/2024"))) (by decide)).2.1 (by decide)

/-- Claim C10: whenever the payload carries an `account_number`, the filename
placed in the record before validation is the derived
`{last4}-{month}-{year}.pdf`; on successful validation exactly that string is
the one handed to `insert_statement` (the future database-stage existence
key); and the stored name is independent of whatever `filename` value the
payload itself carried. -/
theorem c10_persisted_filename (d : RawData) (acct : Str)
    (h : d.account_number = some acct) :
    (normalizeData d).filename = some (derivedFilename acct d.statement_date) ∧
    (∀ ps, parseStatementData (normalizeData d) = Except.ok ps →
      ps.filename = derivedFilename acct d.statement_date) ∧
    (∀ f1 f2 : Option Str,
      (normalizeData { d with filename := f1 }).filename =
        (normalizeData { d with filename := f2 }).filename) := by
  have hfn : (normalizeData d).filename = some (derivedFilename acct d.statement_date) := by
    simp [normalizeData, h]
  refine ⟨hfn, ?_, ?_⟩
  · intro ps hps
    unfold parseStatementData at hps
    cases hv : validateStatementData (normalizeData d) with
    | nil =>
      rw [hv] at hps
      injection hps with h2
      rw [← h2]
      simp [hfn]
    | cons e es =>
      rw [hv] at hps
      injection hps
  · intro f1 f2
    simp [normalizeData, h]

/-- Concrete payload for the C10 witness. -/
def c10Data : RawData :=
  { account_number := some (strOf "987654321")
    statement_date := some (strOf "03/31/2024")
    filename := some (strOf "source.pdf") }

/-- Claim C10 witness: a concrete payload; the derived name is
"4321-03-2024.pdf" whatever the incoming filename field says. -/
theorem c10_persisted_filename_witness :
    (normalizeData c10Data).filename = some (strOf "4321-03-2024.pdf") := by
  have h := c10_persisted_filename c10Data (strOf "987654321") rfl
  exact h.1.trans (by decide)

/-- A well-formed model payload for the concrete idempotency scenario. -/
def c1Data : RawData :=
  { account_number := some (strOf "00001234")
    statement_date := some (strOf "03/31/2024")
    period_start := some (strOf "03/01/2024")
    period_end := some (strOf "03/31/2024")
    beginning_balance := some 100
    ending_balance := some 200
    total_fees := some 0
    important_notes := some []
    deposits := [{ date := strOf "03/15", description := strOf "DEPOSIT A", amount := 50 }]
    withdrawals := [{ date := strOf "03/20", description := strOf "PAYMENT B", amount := 25,
                      tax_category := strOf "Tax Payment" }] }

def c1Env : Env :=
  { accounts := [(strOf "00001234", { id := 7, company_name := strOf "Acme" })]
    primaryOf := fun _ => some c1Data }

def c1Pdf : Str := strOf "20240315-statements-1234-foo.pdf"

def c1FirstRun : DirState × List Record :=
  runDirectory c1Env (strOf "Acme") (strOf "00001234") {} [c1Pdf]

def c1SecondRun : DirState × List Record :=
  runDirectory c1Env (strOf "Acme") (strOf "00001234")
    { c1FirstRun.1 with primaryCalls := 0, fallbackCalls := 0 } [c1Pdf]

/-- Claim C1 (code evidence): processing the same directory twice with no state
deleted does NOT skip the document on the second run.  The first run stores
the derived filename "1234-03-2024.pdf", so the database-stage check — which
queries the source PDF's own name — returns false; and the JSON-stage check
looks for "1234032024.json" while the artifact was saved as "1234030315.json",
so it also misses.  The second run therefore calls the primary model again
(one more Completion Adapter call) and inserts a duplicate statement row. -/
theorem c1_second_run_reprocesses :
    c1FirstRun.1.db.stmts.length = 1 ∧
    checkStatementExists c1FirstRun.1.db c1Pdf = false ∧
    c1SecondRun.1.primaryCalls = 1 ∧
    c1SecondRun.1.db.stmts.length = 2 := by
  decide

/-- Claim C7: if the statement row insert succeeded and a later line-item
insert fails, the statement row stays committed (each insert commits on its
own connection) and the document surfaces a per-document error record. -/
theorem c7_partial_commit (env : Env) (company acct : Str) (st : DirState) (pdf : Str)
    (d : RawData) (ps : ParsedStatement) (aref : AccountRef) (y m l4 : Str)
    (h0 : checkStatementExists st.db pdf = false)
    (h1 : extractIdentity pdf = some (y, m, l4))
    (hOrg : (company, acct, y, l4 ++ m ++ y ++ strOf ".json") ∉ st.fs.org)
    (hTemp : (l4 ++ m ++ y ++ strOf ".json") ∉ st.fs.temp)
    (h3 : env.textOf pdf = true)
    (h4 : env.primaryOf pdf = some d)
    (h5 : parseStatementData (normalizeData d) = Except.ok ps)
    (h6 : fetchAccount env ps.account_number = some aref)
    (h7 : (parseDateMDY ps.statement_date).isSome = true)
    (h8 : (parseDateMDY ps.period_start).isSome = true)
    (h9 : (parseDateMDY ps.period_end).isSome = true)
    (h10 : env.stmtInsertOk = true)
    (h11 : (processJsonData env st.db d).2 = Except.error DocErr.persistenceFailure) :
    (processFile env company acct st pdf).2 =
      some { filename := pdf, status := Status.error,
             message := some DocErr.persistenceFailure } ∧
    (processFile env company acct st pdf).1.db.stmts =
      st.db.stmts ++ [{ account_reference_id := aref.id, filename := ps.filename }] := by
  have hdb : (processJsonData env st.db d).1.stmts =
      st.db.stmts ++ [{ account_reference_id := aref.id, filename := ps.filename }] := by
    simp only [processJsonData, h5, h6]
    rw [if_pos ⟨h7, h8, h9⟩, if_pos h10]
    split
    · split
      · rw [insertWithdrawals_stmts, insertDeposits_stmts]
      · rw [insertWithdrawals_stmts, insertDeposits_stmts]
    · rw [insertDeposits_stmts]
  have hcr : completionResult env pdf = (0, some d) := by
    unfold completionResult
    rw [h4]
  have hout : processStatement env st.db st.fs pdf =
      { db := (processJsonData env st.db d).1,
        fs := { temp := addFile st.fs.temp (saveJsonName pdf d.statement_date),
                org := st.fs.org },
        fallbackCalls := 0, outcome := Except.error DocErr.persistenceFailure,
        movedWarning := false } := by
    simp only [processStatement, hcr, afterCompletion, h11]
  have hpf : processFile env company acct st pdf =
      ({ db := (processJsonData env st.db d).1,
         fs := { temp := addFile st.fs.temp (saveJsonName pdf d.statement_date),
                 org := st.fs.org },
         primaryCalls := st.primaryCalls + 1,
         fallbackCalls := st.fallbackCalls + 0 },
       some { filename := pdf, status := Status.error,
              message := some DocErr.persistenceFailure }) := by
    simp only [processFile, h0, h1, h3, Bool.false_eq_true, if_false, if_true]
    rw [if_neg (fun hcon => hcon.elim hOrg hTemp)]
    simp only [hout]
  constructor
  · rw [hpf]
  · rw [hpf]
    exact hdb

/-- Payload for the C7 witness: one withdrawal whose insert is made to fail. -/
def c7Data : RawData := c1Data

def c7Env : Env :=
  { accounts := [(strOf "00001234", { id := 7, company_name := strOf "Acme" })]
    primaryOf := fun _ => some c7Data
    withdrawalOk := fun _ => false }

/-- The value `parseStatementData` produces for the normalized `c7Data`. -/
def c7Ps : ParsedStatement :=
  { account_number := strOf "00001234"
    statement_date := strOf "03/31/2024"
    period_start := strOf "03/01/2024"
    period_end := strOf "03/31/2024"
    beginning_balance := 100
    ending_balance := 200
    total_fees := 0
    filename := strOf "1234-03-2024.pdf"
    important_notes := []
    deposits := [{ date := strOf "03/15/2024", description := strOf "DEPOSIT A", amount := 50 }]
    withdrawals := [{ date := strOf "03/20/2024", description := strOf "PAYMENT B", amount := 25,
                      tax_category := strOf "Tax Payment" }] }

/-- Claim C7 witness: the withdrawal insert fails; the statement row is
committed anyway and the document's record is a per-document error. -/
theorem c7_partial_commit_witness :
    (processFile c7Env (strOf "Acme") (strOf "00001234") {} c1Pdf).2 =
      some { filename := c1Pdf, status := Status.error,
             message := some DocErr.persistenceFailure } ∧
    (processFile c7Env (strOf "Acme") (strOf "00001234") {} c1Pdf).1.db.stmts =
      [{ account_reference_id := 7, filename := strOf "1234-03-2024.pdf" }] := by
  have h := c7_partial_commit c7Env (strOf "Acme") (strOf "00001234") {} c1Pdf c7Data c7Ps
    { id := 7, company_name := strOf "Acme" } (strOf "2024") (strOf "03") (strOf "1234")
    (by decide) (by decide) (by decide) (by decide) rfl rfl rfl (by decide)
    (by decide) (by decide) (by decide) rfl rfl
  exact ⟨h.1, h.2.trans (by decide)⟩

/-- Claim C9: when the database write succeeded and the artifact move fails,
the document still succeeds (the move failure is only a warning) and the JSON
artifact remains at the staging location with the organized tree untouched. -/
theorem c9_move_failure_nonfatal (env : Env) (company acct : Str) (st : DirState)
    (pdf : Str) (d : RawData) (ps : ParsedStatement) (y m l4 : Str)
    (h0 : checkStatementExists st.db pdf = false)
    (h1 : extractIdentity pdf = some (y, m, l4))
    (hOrg : (company, acct, y, l4 ++ m ++ y ++ strOf ".json") ∉ st.fs.org)
    (hTemp : (l4 ++ m ++ y ++ strOf ".json") ∉ st.fs.temp)
    (h3 : env.textOf pdf = true)
    (h4 : env.primaryOf pdf = some d)
    (hok : (processJsonData env st.db d).2 = Except.ok ps)
    (hmv : env.moveOk = false) :
    (processFile env company acct st pdf).2 =
      some { filename := pdf, status := Status.success, message := none } ∧
    saveJsonName pdf d.statement_date ∈ (processFile env company acct st pdf).1.fs.temp ∧
    (processFile env company acct st pdf).1.fs.org = st.fs.org := by
  have hcr : completionResult env pdf = (0, some d) := by
    unfold completionResult
    rw [h4]
  have hmove : ∀ (fs2 : FsState) (an : Str), tryMove env d fs2 an = (fs2, true) :=
    fun fs2 an => tryMove_moveFails env d fs2 an hmv
  have hout : processStatement env st.db st.fs pdf =
      { db := (processJsonData env st.db d).1,
        fs := { temp := addFile st.fs.temp (saveJsonName pdf d.statement_date),
                org := st.fs.org },
        fallbackCalls := 0, outcome := Except.ok (),
        movedWarning := true } := by
    simp only [processStatement, hcr, afterCompletion, hok, hmove]
  have hpf : processFile env company acct st pdf =
      ({ db := (processJsonData env st.db d).1,
         fs := { temp := addFile st.fs.temp (saveJsonName pdf d.statement_date),
                 org := st.fs.org },
         primaryCalls := st.primaryCalls + 1,
         fallbackCalls := st.fallbackCalls + 0 },
       some { filename := pdf, status := Status.success, message := none }) := by
    simp only [processFile, h0, h1, h3, Bool.false_eq_true, if_false, if_true]
    rw [if_neg (fun hcon => hcon.elim hOrg hTemp)]
    simp only [hout]
  refine ⟨by rw [hpf], ?_, by rw [hpf]⟩
  rw [hpf]
  exact mem_addFile st.fs.temp (saveJsonName pdf d.statement_date)

def c9Env : Env :=
  { accounts := [(strOf "00001234", { id := 7, company_name := strOf "Acme" })]
    primaryOf := fun _ => some c1Data
    moveOk := false }

/-- Claim C9 witness: move fails after a successful database write; the run
still reports success and "1234030315.json" stays in staging. -/
theorem c9_move_failure_nonfatal_witness :
    (processFile c9Env (strOf "Acme") (strOf "00001234") {} c1Pdf).2 =
      some { filename := c1Pdf, status := Status.success, message := none } ∧
    strOf "1234030315.json" ∈
      (processFile c9Env (strOf "Acme") (strOf "00001234") {} c1Pdf).1.fs.temp ∧
    (processFile c9Env (strOf "Acme") (strOf "00001234") {} c1Pdf).1.fs.org = [] := by
  have h := c9_move_failure_nonfatal c9Env (strOf "Acme") (strOf "00001234") {} c1Pdf
    c1Data c7Ps (strOf "2024") (strOf "03") (strOf "1234")
    (by decide) (by decide) (by decide) (by decide) rfl rfl rfl rfl
  refine ⟨h.1, ?_, h.2.2⟩
  have h2 := h.2.1
  rw [show saveJsonName c1Pdf c1Data.statement_date = strOf "1234030315.json" from by decide] at h2
  exact h2

def c8Db : DbState :=
  { stmts := [{ account_reference_id := 1, filename := strOf "x.pdf" }] }

/-- Claim C8 (counterexample): a directory containing one document that the
database-stage check recognizes produces an empty result list — the skipped
document yields no record of any status, contradicting the claim that every
document in the directory yields a result record. -/
theorem c8_no_record_for_skipped :
    (runDirectory {} (strOf "C") (strOf "A") { db := c8Db } [strOf "x.pdf"]).2 = [] ∧
    [strOf "x.pdf"].length = 1 := by
  decide

/-- Claim C8 (amended): one document's failure never aborts its siblings — a
directory run is the concatenation of the records of any prefix run and the
continuation run from the resulting state — and every record produced carries
status success or error (never skipped); documents short-circuited by the
idempotency checks or an unmatched filename yield no record at all.  In the
`process_json_directory` runner every listed file yields exactly one record. -/
theorem c8_batch_independence :
    (∀ (env : Env) (company acct : Str) (st : DirState) (files : List Str) (r : Record),
      r ∈ (runDirectory env company acct st files).2 →
      r.status = Status.success ∨ r.status = Status.error) ∧
    (∀ (env : Env) (company acct : Str) (st : DirState) (fs1 fs2 : List Str),
      runDirectory env company acct st (fs1 ++ fs2) =
        ((runDirectory env company acct (runDirectory env company acct st fs1).1 fs2).1,
         (runDirectory env company acct st fs1).2 ++
           (runDirectory env company acct (runDirectory env company acct st fs1).1 fs2).2)) ∧
    (∀ (env : Env) (st : DirState) (files : List Str),
      (runJsonDirectory env st files).2.length = files.length) := by
  refine ⟨?_, ?_, ?_⟩
  · intro env company acct st files
    induction files generalizing st with
    | nil =>
      intro r hr
      simp [runDirectory] at hr
    | cons f rest ih =>
      intro r hr
      simp only [runDirectory, List.mem_append] at hr
      rcases hr with hr | hr
      · cases hpf : (processFile env company acct st f).2 with
        | none => rw [hpf] at hr; simp at hr
        | some rcd =>
          rw [hpf] at hr
          simp only [Option.toList_some, List.mem_singleton] at hr
          subst hr
          exact processFile_no_skipped_status env company acct st f
            (processFile env company acct st f).1 r (by rw [← hpf])
      · exact ih _ r hr
  · intro env company acct st fs1 fs2
    induction fs1 generalizing st with
    | nil => simp [runDirectory]
    | cons f rest ih =>
      simp only [List.cons_append, runDirectory, List.append_eq, ih, List.append_assoc]
  · intro env st files
    induction files generalizing st with
    | nil => rfl
    | cons f rest ih =>
      simp only [runJsonDirectory, List.length_cons, ih]

/-- Claim C8 witness: the amended theorem's status guarantee applied to a
concrete one-document run that produces an error record. -/
theorem c8_batch_independence_witness :
    ({ filename := strOf "20240315-statements-1234-foo.pdf", status := Status.error,
       message := some DocErr.completionFailure } : Record).status = Status.success ∨
    ({ filename := strOf "20240315-statements-1234-foo.pdf", status := Status.error,
       message := some DocErr.completionFailure } : Record).status = Status.error :=
  c8_batch_independence.1 {} (strOf "C") (strOf "A") {}
    [strOf "20240315-statements-1234-foo.pdf"] _ (by decide)

/-! ## Response unwrapping (claim C5)

JSON values, a canonical serializer, and a model of `json.loads` as a
fuel-based recursive-descent parser (for strings without escape sequences or
inter-token whitespace, which is what the serializer emits).  `stripFence`
models lines 80-92 of `process_statement`: the `startswith`/`endswith` guard,
`content.strip()`, the regex `^```(?:json)?\n(.*)\n```$` (DOTALL), and the
nested-`data` envelope extraction on the parsed value. -/

inductive Json where
  | null
  | bool (b : Bool)
  | num (n : Int)
  | str (s : Str)
  | arr (xs : List Json)
  | obj (kvs : List (Str × Json))

def digitVal (c : Char) : Nat := c.toNat - 48

/-- Decimal digits of `n`, most significant first (structural fuel version). -/
def natDigitsAux : Nat → Nat → Str
  | 0, _ => []
  | fuel + 1, n => if n = 0 then [] else natDigitsAux fuel (n / 10) ++ [Char.ofNat (48 + n % 10)]

def natDigits (n : Nat) : Str :=
  if n = 0 then ['0'] else natDigitsAux (n + 1) n

def dumpsNum (n : Int) : Str :=
  if n < 0 then '-' :: natDigits n.natAbs else natDigits n.toNat

mutual
/-- Canonical compact JSON serialization (the shape `json.loads` accepts). -/
def dumpsV : Json → Str
  | .null => strOf "null"
  | .bool true => strOf "true"
  | .bool false => strOf "false"
  | .num n => dumpsNum n
  | .str s => '\"' :: s ++ ['\"']
  | .arr [] => ['[', ']']
  | .arr (v :: vs) => '[' :: dumpsV v ++ dumpsItems vs
  | .obj [] => ['\x7b', '\x7d']
  | .obj (m :: ms) => '\x7b' :: dumpsMember m ++ dumpsMembers ms

def dumpsItems : List Json → Str
  | [] => [']']
  | v :: vs => ',' :: dumpsV v ++ dumpsItems vs

def dumpsMember : Str × Json → Str
  | (k, v) => '\"' :: k ++ '\"' :: ':' :: dumpsV v

def dumpsMembers : List (Str × Json) → Str
  | [] => ['\x7d']
  | m :: ms => ',' :: dumpsMember m ++ dumpsMembers ms
end

/-- String body reader: characters up to the closing quote (no escapes). -/
def takeStr : Str → Option (Str × Str)
  | [] => none
  | c :: rest =>
    if c = '\"' then some ([], rest)
    else (takeStr rest).map (fun p => (c :: p.1, p.2))

/-- Maximal-munch digit run, accumulating the value. -/
def parseDigits : Str → Nat → Nat × Str
  | [], acc => (acc, [])
  | c :: rest, acc =>
    if c.isDigit then parseDigits rest (acc * 10 + digitVal c) else (acc, c :: rest)

def parseNat : Str → Option (Nat × Str)
  | [] => none
  | c :: rest => if c.isDigit then some (parseDigits rest (digitVal c)) else none

mutual
/-- One JSON value, returning it and the unconsumed remainder. -/
def parseV : Nat → Str → Option (Json × Str)
  | 0, _ => none
  | fuel + 1, cs =>
    match cs with
    | 'n' :: 'u' :: 'l' :: 'l' :: rest => some (.null, rest)
    | 't' :: 'r' :: 'u' :: 'e' :: rest => some (.bool true, rest)
    | 'f' :: 'a' :: 'l' :: 's' :: 'e' :: rest => some (.bool false, rest)
    | '\"' :: rest => (takeStr rest).map (fun p => (.str p.1, p.2))
    | '[' :: rest =>
      (match rest with
       | ']' :: r => some (.arr [], r)
       | _ =>
         match parseV fuel rest with
         | some (v, r1) => (parseItems fuel r1).map (fun p => (.arr (v :: p.1), p.2))
         | none => none)
    | '\x7b' :: rest =>
      (match rest with
       | '\x7d' :: r => some (.obj [], r)
       | _ =>
         match parseMember fuel rest with
         | some (m, r1) => (parseMembers fuel r1).map (fun p => (.obj (m :: p.1), p.2))
         | none => none)
    | '-' :: rest => (parseNat rest).map (fun p => (.num (-(p.1 : Int)), p.2))
    | c :: rest =>
      if c.isDigit then (parseNat (c :: rest)).map (fun p => (.num (p.1 : Int), p.2))
      else none
    | [] => none

def parseItems : Nat → Str → Option (List Json × Str)
  | 0, _ => none
  | fuel + 1, cs =>
    match cs with
    | ']' :: r => some ([], r)
    | ',' :: r =>
      (match parseV fuel r with
       | some (v, r1) => (parseItems fuel r1).map (fun p => (v :: p.1, p.2))
       | none => none)
    | _ => none

def parseMember : Nat → Str → Option ((Str × Json) × Str)
  | 0, _ => none
  | fuel + 1, cs =>
    match cs with
    | '\"' :: rest =>
      (match takeStr rest with
       | some (k, r1) =>
         (match r1 with
          | ':' :: r2 => (parseV fuel r2).map (fun p => ((k, p.1), p.2))
          | _ => none)
       | none => none)
    | _ => none

def parseMembers : Nat → Str → Option (List (Str × Json) × Str)
  | 0, _ => none
  | fuel + 1, cs =>
    match cs with
    | '\x7d' :: r => some ([], r)
    | ',' :: r =>
      (match parseMember fuel r with
       | some (m, r1) => (parseMembers fuel r1).map (fun p => (m :: p.1, p.2))
       | none => none)
    | _ => none
end

/-- Model of `json.loads`: parse and require full consumption. -/
def loads (s : Str) : Option Json :=
  match parseV (2 * s.length + 2) s with
  | some (v, []) => some v
  | _ => none

/-- Python `str.startswith`. -/
def strStarts : Str → Str → Bool
  | [], _ => true
  | _ :: _, [] => false
  | p :: ps, c :: cs => p == c && strStarts ps cs

/-- Python `str.endswith`. -/
def strEnds (pat s : Str) : Bool := strStarts pat.reverse s.reverse

def isPySpace (c : Char) : Bool :=
  c = ' ' || c = '\t' || c = '\n' || c = '\r' || c = '\x0b' || c = '\x0c'

/-- Python `str.strip()`. -/
def pyStrip (s : Str) : Str :=
  ((s.dropWhile isPySpace).reverse.dropWhile isPySpace).reverse

/-- Lines 80-83 of `process_statement`: if the content starts and ends with
a fence, apply `re.sub(r'^```(?:json)?\n(.*)\n```$', r'\1', content.strip(),
flags=re.DOTALL)` — which returns the stripped content unchanged when the
pattern does not match. -/
def stripFence (content : Str) : Str :=
  if strStarts (strOf "```") content && strEnds (strOf "```") content then
    let t := pyStrip content
    let core? : Option Str :=
      if strStarts (strOf "```json" ++ ['\n']) t then
        let rest := t.drop 8
        if strEnds ('\n' :: strOf "```") rest then some (rest.take (rest.length - 4)) else none
      else if strStarts (strOf "```" ++ ['\n']) t then
        let rest := t.drop 4
        if strEnds ('\n' :: strOf "```") rest then some (rest.take (rest.length - 4)) else none
      else none
    match core? with
    | some m => m
    | none => t
  else content

/-- Python `dict` access with JSON duplicate-key semantics (last key wins). -/
def dictGet (kvs : List (Str × Json)) (k : Str) : Option Json :=
  kvs.foldl (fun acc p => if p.1 == k then some p.2 else acc) none

/-- Lines 88-92 of `process_statement`: extract the nested `data` value when
the parsed response is a dict containing that key. -/
def unwrapData (j : Json) : Json :=
  match j with
  | .obj kvs =>
    match dictGet kvs (strOf "data") with
    | some v => v
    | none => j
  | _ => j

/-- The full response-content handling of `process_statement` lines 79-92:
fence strip, `json.loads`, envelope extraction.  `none` models the
JSONDecodeError path. -/
def pipeline (content : Str) : Option Json :=
  (loads (stripFence content)).map unwrapData

/-- A fenced model response: three backticks, `json`, newline, body, newline,
three backticks. -/
def wrapFence (s : Str) : Str :=
  strOf "```json" ++ '\n' :: s ++ '\n' :: strOf "```"

/-- The `{status, data, error}` envelope around a payload. -/
def envelope (status : Str) (data err : Json) : Json :=
  .obj [(strOf "status", .str status), (strOf "data", data), (strOf "error", err)]

def niceChar (c : Char) : Bool := !(c == '\"' || c == '\\')

def niceStr : Str → Bool
  | [] => true
  | c :: cs => niceChar c && niceStr cs

mutual
/-- Values whose strings need no escaping (the fragment the parser model
covers). -/
def niceJson : Json → Bool
  | .null => true
  | .bool _ => true
  | .num _ => true
  | .str s => niceStr s
  | .arr xs => niceArr xs
  | .obj kvs => niceObj kvs

def niceArr : List Json → Bool
  | [] => true
  | v :: vs => niceJson v && niceArr vs

def niceObj : List (Str × Json) → Bool
  | [] => true
  | (k, v) :: ms => niceStr k && niceJson v && niceObj ms
end

/-- The remainder does not start with a digit (so maximal-munch number
parsing stops exactly at the serialized boundary). -/
def restOkB : Str → Bool
  | [] => true
  | c :: _ => !c.isDigit

mutual
def jsize : Json → Nat
  | .null => 1
  | .bool _ => 1
  | .num _ => 1
  | .str _ => 1
  | .arr xs => 1 + lsize xs
  | .obj kvs => 1 + msize kvs

def lsize : List Json → Nat
  | [] => 1
  | v :: vs => 1 + jsize v + lsize vs

def memsize : Str × Json → Nat
  | (_, v) => 1 + jsize v

def msize : List (Str × Json) → Nat
  | [] => 1
  | m :: ms => 1 + memsize m + msize ms
end

/-! ### Digit lemmas -/

theorem digit_char_spec (m : Nat) (h : m < 10) :
    (Char.ofNat (48 + m)).isDigit = true ∧ digitVal (Char.ofNat (48 + m)) = m := by
  interval_cases m <;> exact ⟨by decide, by decide⟩

theorem natDigitsAux_digits (fuel : Nat) :
    ∀ n, ∀ c ∈ natDigitsAux fuel n, c.isDigit = true := by
  induction fuel with
  | zero => intro n c hc; simp [natDigitsAux] at hc
  | succ fuel ih =>
    intro n c hc
    unfold natDigitsAux at hc
    split at hc
    · simp at hc
    · rw [List.mem_append] at hc
      rcases hc with hc | hc
      · exact ih _ c hc
      · rw [List.mem_singleton] at hc
        subst hc
        exact (digit_char_spec (n % 10) (Nat.mod_lt n (by norm_num))).1

theorem natDigitsAux_ne_nil (fuel n : Nat) (hn : n ≠ 0) (hf : fuel ≠ 0) :
    natDigitsAux fuel n ≠ [] := by
  cases fuel with
  | zero => exact absurd rfl hf
  | succ fuel =>
    unfold natDigitsAux
    rw [if_neg hn]
    simp

theorem foldl_digits_acc (ds : Str) :
    ∀ acc : Nat, ds.foldl (fun a c => a * 10 + digitVal c) acc =
      acc * 10 ^ ds.length + ds.foldl (fun a c => a * 10 + digitVal c) 0 := by
  induction ds with
  | nil => intro acc; simp
  | cons c rest ih =>
    intro acc
    simp only [List.foldl_cons, List.length_cons]
    rw [ih (acc * 10 + digitVal c), ih (0 * 10 + digitVal c)]
    ring

theorem natDigitsAux_val (fuel : Nat) :
    ∀ n, n ≤ fuel →
      (natDigitsAux fuel n).foldl (fun a c => a * 10 + digitVal c) 0 = n := by
  induction fuel with
  | zero => intro n hn; interval_cases n; simp [natDigitsAux]
  | succ fuel ih =>
    intro n hn
    unfold natDigitsAux
    split
    · simp only [List.foldl_nil]
      omega
    · rename_i hn0
      rw [List.foldl_append]
      have hdiv : n / 10 ≤ fuel := by
        have h1 : n / 10 < n := Nat.div_lt_self (Nat.pos_of_ne_zero hn0) (by norm_num)
        omega
      rw [ih (n / 10) hdiv]
      simp only [List.foldl_cons, List.foldl_nil]
      rw [(digit_char_spec (n % 10) (Nat.mod_lt n (by norm_num))).2]
      omega

theorem parseDigits_append (ds : Str) :
    ∀ (rest : Str) (acc : Nat), (∀ c ∈ ds, c.isDigit = true) → restOkB rest = true →
      parseDigits (ds ++ rest) acc = (ds.foldl (fun a c => a * 10 + digitVal c) acc, rest) := by
  induction ds with
  | nil =>
    intro rest acc _ hr
    cases rest with
    | nil => rfl
    | cons c r =>
      simp only [restOkB, Bool.not_eq_true'] at hr
      simp [parseDigits, hr]
  | cons d ds ih =>
    intro rest acc hd hr
    have hdd : d.isDigit = true := hd d (List.mem_cons_self d ds)
    simp only [List.cons_append, parseDigits, hdd, if_true]
    exact ih rest _ (fun c hc => hd c (List.mem_cons_of_mem d hc)) hr

theorem parseNat_natDigits (n : Nat) (rest : Str) (hr : restOkB rest = true) :
    parseNat (natDigits n ++ rest) = some (n, rest) := by
  by_cases hn : n = 0
  · subst hn
    have h0 := parseDigits_append [] rest 0 (by simp) hr
    simp only [List.nil_append, List.foldl_nil] at h0
    show parseNat ('0' :: rest) = some (0, rest)
    rw [show parseNat ('0' :: rest) = some (parseDigits rest (digitVal '0')) from rfl]
    rw [show digitVal '0' = 0 from by decide, h0]
  · unfold natDigits
    rw [if_neg hn]
    obtain ⟨d, ds, hds⟩ :=
      List.exists_cons_of_ne_nil (natDigitsAux_ne_nil (n + 1) n hn (by omega))
    have hall := natDigitsAux_digits (n + 1) n
    rw [hds] at hall
    have hval : (d :: ds).foldl (fun a c => a * 10 + digitVal c) 0 = n := by
      rw [← hds]
      exact natDigitsAux_val (n + 1) n (by omega)
    rw [hds]
    simp only [List.cons_append, parseNat, hall d (List.mem_cons_self d ds), if_true]
    rw [parseDigits_append ds rest (digitVal d)
      (fun c hc => hall c (List.mem_cons_of_mem d hc)) hr]
    simp only [List.foldl_cons] at hval
    rw [show digitVal d = 0 * 10 + digitVal d from by omega, hval]

theorem takeStr_append (s : Str) :
    ∀ rest : Str, niceStr s = true → takeStr (s ++ '\"' :: rest) = some (s, rest) := by
  induction s with
  | nil => intro rest _; rfl
  | cons c cs ih =>
    intro rest hs
    simp only [niceStr, Bool.and_eq_true] at hs
    obtain ⟨h1, h2⟩ := hs
    have hbeq : (c == '\"') = false := by
      simp only [niceChar, Bool.not_eq_true', Bool.or_eq_false_iff] at h1
      exact h1.1
    have hne : ¬(c = '\"') := beq_eq_false_iff_ne.mp hbeq
    show takeStr (c :: (cs ++ '\"' :: rest)) = some (c :: cs, rest)
    unfold takeStr
    rw [if_neg hne, ih rest h2]
    rfl

/-- Every serialized value starts with a character that is neither `]` (so
array-element parsing is unambiguous) nor a backtick (so a bare payload is
never mistaken for a fenced block). -/
theorem dumpsV_head (v : Json) :
    ∃ c cs, dumpsV v = c :: cs ∧ c ≠ ']' ∧ c ≠ '`' := by
  cases v with
  | null => exact ⟨'n', _, rfl, by decide, by decide⟩
  | bool b =>
    cases b with
    | false => exact ⟨'f', _, rfl, by decide, by decide⟩
    | true => exact ⟨'t', _, rfl, by decide, by decide⟩
  | num n =>
    show ∃ c cs, dumpsNum n = c :: cs ∧ c ≠ ']' ∧ c ≠ '`'
    unfold dumpsNum
    split
    · exact ⟨'-', _, rfl, by decide, by decide⟩
    · unfold natDigits
      by_cases hn : n.toNat = 0
      · rw [if_pos hn]
        exact ⟨'0', _, rfl, by decide, by decide⟩
      · rw [if_neg hn]
        obtain ⟨d, ds, hds⟩ :=
          List.exists_cons_of_ne_nil (natDigitsAux_ne_nil (n.toNat + 1) n.toNat hn (by omega))
        have hall := natDigitsAux_digits (n.toNat + 1) n.toNat
        rw [hds] at hall
        have hd : d.isDigit = true := hall d (List.mem_cons_self d ds)
        refine ⟨d, ds, hds, ?_, ?_⟩
        · intro h; rw [h] at hd; exact absurd hd (by decide)
        · intro h; rw [h] at hd; exact absurd hd (by decide)
  | str s => exact ⟨'\"', _, rfl, by decide, by decide⟩
  | arr xs =>
    cases xs with
    | nil => exact ⟨'[', _, rfl, by decide, by decide⟩
    | cons v vs => exact ⟨'[', _, rfl, by decide, by decide⟩
  | obj kvs =>
    cases kvs with
    | nil => exact ⟨'\x7b', _, rfl, by decide, by decide⟩
    | cons m ms => exact ⟨'\x7b', _, rfl, by decide, by decide⟩

theorem natDigits_head (n : Nat) : ∃ d ds, natDigits n = d :: ds ∧ d.isDigit = true := by
  unfold natDigits
  split
  · exact ⟨'0', [], rfl, by decide⟩
  · rename_i hn
    obtain ⟨d, ds, hds⟩ :=
      List.exists_cons_of_ne_nil (natDigitsAux_ne_nil (n + 1) n hn (by omega))
    have hall := natDigitsAux_digits (n + 1) n
    rw [hds] at hall
    exact ⟨d, ds, hds, hall d (List.mem_cons_self d ds)⟩

theorem jsize_pos (v : Json) : 1 ≤ jsize v := by
  cases v <;> simp [jsize]

theorem lsize_pos (vs : List Json) : 1 ≤ lsize vs := by
  cases vs <;> simp [lsize] <;> omega

theorem msize_pos (ms : List (Str × Json)) : 1 ≤ msize ms := by
  cases ms <;> simp [msize] <;> omega

theorem memsize_pos (m : Str × Json) : 1 ≤ memsize m := by
  obtain ⟨k, v⟩ := m
  simp [memsize]

theorem restOkB_items (vs : List Json) (r : Str) :
    restOkB (dumpsItems vs ++ r) = true := by
  cases vs <;> rfl

theorem restOkB_members (ms : List (Str × Json)) (r : Str) :
    restOkB (dumpsMembers ms ++ r) = true := by
  cases ms <;> rfl

/-- Round trip: the parser recovers exactly the serialized value, leaving the
remainder untouched, given enough fuel. -/
theorem parse_dumps :
    ∀ fuel : Nat,
      (∀ v rest, niceJson v = true → restOkB rest = true → jsize v ≤ fuel →
        parseV fuel (dumpsV v ++ rest) = some (v, rest)) ∧
      (∀ vs rest, niceArr vs = true → lsize vs ≤ fuel →
        parseItems fuel (dumpsItems vs ++ rest) = some (vs, rest)) ∧
      (∀ ms rest, niceObj ms = true → msize ms ≤ fuel →
        parseMembers fuel (dumpsMembers ms ++ rest) = some (ms, rest)) ∧
      (∀ k v rest, niceStr k = true → niceJson v = true → restOkB rest = true →
        memsize (k, v) ≤ fuel →
        parseMember fuel (dumpsMember (k, v) ++ rest) = some ((k, v), rest)) := by
  intro fuel
  induction fuel using Nat.strong_induction_on with
  | _ fuel ih =>
    cases fuel with
    | zero =>
      refine ⟨?_, ?_, ?_, ?_⟩
      · intro v rest _ _ hs
        have := jsize_pos v
        omega
      · intro vs rest _ hs
        have := lsize_pos vs
        omega
      · intro ms rest _ hs
        have := msize_pos ms
        omega
      · intro k v rest _ _ _ hs
        have := memsize_pos (k, v)
        omega
    | succ f =>
      obtain ⟨ihV, ihI, ihM, ihMem⟩ := ih f (Nat.lt_succ_self f)
      refine ⟨?_, ?_, ?_, ?_⟩
      · intro v rest hnice hrest hsize
        cases v with
        | null => rfl
        | bool b => cases b <;> rfl
        | num n =>
          simp only [dumpsV, dumpsNum]
          by_cases hneg : n < 0
          · rw [if_pos hneg]
            try simp only [List.cons_append]
            rw [show ∀ X, parseV (f + 1) ('-' :: X) =
              (parseNat X).map (fun p => (Json.num (-(p.1 : Int)), p.2)) from fun _ => rfl]
            rw [parseNat_natDigits n.natAbs rest hrest]
            have hid : (-(n.natAbs : Int)) = n := by omega
            simp only [Option.map_some', hid]
          · rw [if_neg hneg]
            obtain ⟨d, ds, hds, hd⟩ := natDigits_head n.toNat
            rw [hds]
            simp only [List.cons_append]
            unfold parseV
            split
            · rename_i heq
              injection heq with h1 _
              rw [h1] at hd
              exact absurd hd (by decide)
            · rename_i heq
              injection heq with h1 _
              rw [h1] at hd
              exact absurd hd (by decide)
            · rename_i heq
              injection heq with h1 _
              rw [h1] at hd
              exact absurd hd (by decide)
            · rename_i heq
              injection heq with h1 _
              rw [h1] at hd
              exact absurd hd (by decide)
            · rename_i heq
              injection heq with h1 _
              rw [h1] at hd
              exact absurd hd (by decide)
            · rename_i heq
              injection heq with h1 _
              rw [h1] at hd
              exact absurd hd (by decide)
            · rename_i heq
              injection heq with h1 _
              rw [h1] at hd
              exact absurd hd (by decide)
            · rename_i heq
              injection heq with h1 h2
              rw [← h1, ← h2, if_pos hd]
              rw [show parseNat (d :: (ds ++ rest)) = some (n.toNat, rest) from by
                rw [← List.cons_append, ← hds]
                exact parseNat_natDigits n.toNat rest hrest]
              have hid : ((n.toNat : Int)) = n := by omega
              simp only [Option.map_some', hid]
            · rename_i heq
              exact absurd heq (by simp)
        | str s =>
          simp only [dumpsV, List.cons_append, List.append_assoc, List.nil_append]
          rw [show ∀ X, parseV (f + 1) ('\"' :: X) =
            (takeStr X).map (fun p => (Json.str p.1, p.2)) from fun _ => rfl]
          rw [takeStr_append s rest hnice]
          rfl
        | arr xs =>
          cases xs with
          | nil => rfl
          | cons x xs =>
            simp only [dumpsV, List.cons_append, List.append_assoc]
            obtain ⟨c, cs, hc, hne, _⟩ := dumpsV_head x
            simp only [niceJson, niceArr, Bool.and_eq_true] at hnice
            have hsx : jsize x ≤ f := by
              simp only [jsize, lsize] at hsize
              have := lsize_pos xs
              omega
            have hsxs : lsize xs ≤ f := by
              simp only [jsize, lsize] at hsize
              have := jsize_pos x
              omega
            rw [hc]
            simp only [List.cons_append]
            rw [show ∀ X, parseV (f + 1) ('[' :: X) =
              (match X with
               | ']' :: r => some (Json.arr [], r)
               | _ =>
                 match parseV f X with
                 | some (v, r1) => (parseItems f r1).map (fun p => (Json.arr (v :: p.1), p.2))
                 | none => none) from fun _ => rfl]
            split
            · rename_i heq
              injection heq with h1 _
              exact absurd h1 hne
            · have hV : parseV f (c :: (cs ++ (dumpsItems xs ++ rest))) =
                  some (x, dumpsItems xs ++ rest) := by
                rw [← List.cons_append, ← hc]
                exact ihV x (dumpsItems xs ++ rest) hnice.1 (restOkB_items xs rest) hsx
              rw [hV]
              rw [show (match some (x, dumpsItems xs ++ rest) with
                | some (v, r1) => Option.map (fun p => (Json.arr (v :: p.1), p.2)) (parseItems f r1)
                | none => none) = Option.map (fun p => (Json.arr (x :: p.1), p.2))
                  (parseItems f (dumpsItems xs ++ rest)) from rfl]
              rw [ihI xs rest hnice.2 hsxs]
              rfl
        | obj kvs =>
          cases kvs with
          | nil => rfl
          | cons m ms =>
            obtain ⟨k, val⟩ := m
            simp only [niceJson, niceObj, Bool.and_eq_true] at hnice
            have hsm : memsize (k, val) ≤ f := by
              simp only [jsize, msize] at hsize
              have := msize_pos ms
              omega
            have hsms : msize ms ≤ f := by
              simp only [jsize, msize] at hsize
              have := memsize_pos (k, val)
              omega
            simp only [dumpsV, dumpsMember, List.cons_append, List.append_assoc]
            rw [show ∀ X, parseV (f + 1) ('\x7b' :: ('\"' :: X)) =
              (match parseMember f ('\"' :: X) with
               | some (m, r1) => (parseMembers f r1).map (fun p => (Json.obj (m :: p.1), p.2))
               | none => none) from fun _ => rfl]
            have hm : parseMember f ('\"' :: (k ++ '\"' :: ':' :: (dumpsV val ++ (dumpsMembers ms ++ rest)))) =
                some ((k, val), dumpsMembers ms ++ rest) := by
              have := ihMem k val (dumpsMembers ms ++ rest) hnice.1.1 hnice.1.2
                (restOkB_members ms rest) hsm
              simpa only [dumpsMember, List.cons_append, List.append_assoc] using this
            rw [hm]
            rw [show (match some ((k, val), dumpsMembers ms ++ rest) with
              | some (m, r1) => Option.map (fun p => (Json.obj (m :: p.1), p.2)) (parseMembers f r1)
              | none => none) = Option.map (fun p => (Json.obj ((k, val) :: p.1), p.2))
                (parseMembers f (dumpsMembers ms ++ rest)) from rfl]
            rw [ihM ms rest hnice.2 hsms]
            rfl
      · intro vs rest hnice hsize
        cases vs with
        | nil => rfl
        | cons v vs =>
          simp only [dumpsItems, List.cons_append, List.append_assoc]
          simp only [niceArr, Bool.and_eq_true] at hnice
          have hsv : jsize v ≤ f := by
            simp only [lsize] at hsize
            have := lsize_pos vs
            omega
          have hsvs : lsize vs ≤ f := by
            simp only [lsize] at hsize
            have := jsize_pos v
            omega
          rw [show ∀ X, parseItems (f + 1) (',' :: X) =
            (match parseV f X with
             | some (v, r1) => (parseItems f r1).map (fun p => (v :: p.1, p.2))
             | none => none) from fun _ => rfl]
          rw [ihV v (dumpsItems vs ++ rest) hnice.1 (restOkB_items vs rest) hsv]
          rw [show (match some (v, dumpsItems vs ++ rest) with
            | some (w, r1) => Option.map (fun p => (w :: p.1, p.2)) (parseItems f r1)
            | none => none) = Option.map (fun p => (v :: p.1, p.2))
              (parseItems f (dumpsItems vs ++ rest)) from rfl]
          rw [ihI vs rest hnice.2 hsvs]
          rfl
      · intro ms rest hnice hsize
        cases ms with
        | nil => rfl
        | cons m ms =>
          obtain ⟨k, val⟩ := m
          simp only [dumpsMembers, List.cons_append, List.append_assoc]
          simp only [niceObj, Bool.and_eq_true] at hnice
          have hsm : memsize (k, val) ≤ f := by
            simp only [msize] at hsize
            have := msize_pos ms
            omega
          have hsms : msize ms ≤ f := by
            simp only [msize] at hsize
            have := memsize_pos (k, val)
            omega
          rw [show ∀ X, parseMembers (f + 1) (',' :: X) =
            (match parseMember f X with
             | some (m, r1) => (parseMembers f r1).map (fun p => (m :: p.1, p.2))
             | none => none) from fun _ => rfl]
          have hm : parseMember f (dumpsMember (k, val) ++ (dumpsMembers ms ++ rest)) =
              some ((k, val), dumpsMembers ms ++ rest) :=
            ihMem k val (dumpsMembers ms ++ rest) hnice.1.1 hnice.1.2
              (restOkB_members ms rest) hsm
          rw [hm]
          show Option.map (fun p => ((k, val) :: p.1, p.2))
            (parseMembers f (dumpsMembers ms ++ rest)) = some ((k, val) :: ms, rest)
          rw [ihM ms rest hnice.2 hsms]
          rfl
      · intro k v rest hk hv hrest hsize
        have hsv : jsize v ≤ f := by
          simp only [memsize] at hsize
          omega
        simp only [dumpsMember, List.cons_append, List.append_assoc]
        rw [show ∀ X, parseMember (f + 1) ('\"' :: X) =
          (match takeStr X with
           | some (kk, r1) =>
             (match r1 with
              | ':' :: r2 => (parseV f r2).map (fun p => ((kk, p.1), p.2))
              | _ => none)
           | none => none) from fun _ => rfl]
        rw [takeStr_append k (':' :: (dumpsV v ++ rest)) hk]
        show Option.map (fun p => ((k, p.1), p.2))
          (parseV f (dumpsV v ++ rest)) = some ((k, v), rest)
        rw [ihV v rest hv hrest hsv]
        rfl

/-- Enough fuel: the shape measure is at most twice the serialized length. -/
theorem sizes_le_dumps :
    ∀ k : Nat,
      (∀ v, jsize v ≤ k → jsize v ≤ 2 * (dumpsV v).length) ∧
      (∀ vs, lsize vs ≤ k → lsize vs ≤ 2 * (dumpsItems vs).length) ∧
      (∀ ms, msize ms ≤ k → msize ms ≤ 2 * (dumpsMembers ms).length) ∧
      (∀ m, memsize m ≤ k → memsize m ≤ 2 * (dumpsMember m).length) := by
  intro k
  induction k using Nat.strong_induction_on with
  | _ k ih =>
    refine ⟨?_, ?_, ?_, ?_⟩
    · intro v hk
      cases v with
      | null =>
        rw [show (dumpsV Json.null).length = 4 from rfl]
        simp [jsize]
      | bool b =>
        cases b with
        | false =>
          rw [show (dumpsV (Json.bool false)).length = 5 from rfl]
          simp [jsize]
        | true =>
          rw [show (dumpsV (Json.bool true)).length = 4 from rfl]
          simp [jsize]
      | num n =>
        obtain ⟨c, cs, hc, _, _⟩ := dumpsV_head (Json.num n)
        rw [hc]
        simp [jsize]
        omega
      | str s =>
        rw [show (dumpsV (Json.str s)).length = s.length + 2 from by
          simp [dumpsV, List.length_append]]
        simp [jsize]
        omega
      | arr xs =>
        cases xs with
        | nil =>
          rw [show (dumpsV (Json.arr [])).length = 2 from rfl]
          simp [jsize, lsize]
        | cons x xs =>
          simp only [jsize, lsize] at hk ⊢
          have hpx := jsize_pos x
          have hpxs := lsize_pos xs
          have hbx : jsize x ≤ 2 * (dumpsV x).length :=
            (ih (jsize x) (by omega)).1 x (le_refl _)
          have hbxs : lsize xs ≤ 2 * (dumpsItems xs).length :=
            (ih (lsize xs) (by omega)).2.1 xs (le_refl _)
          rw [show (dumpsV (Json.arr (x :: xs))).length =
            1 + (dumpsV x).length + (dumpsItems xs).length from by
              simp [dumpsV, List.length_append]
              omega]
          omega
      | obj kvs =>
        cases kvs with
        | nil =>
          rw [show (dumpsV (Json.obj [])).length = 2 from rfl]
          simp [jsize, msize]
        | cons m ms =>
          simp only [jsize, msize] at hk ⊢
          have hpm := memsize_pos m
          have hpms := msize_pos ms
          have hbm : memsize m ≤ 2 * (dumpsMember m).length :=
            (ih (memsize m) (by omega)).2.2.2 m (le_refl _)
          have hbms : msize ms ≤ 2 * (dumpsMembers ms).length :=
            (ih (msize ms) (by omega)).2.2.1 ms (le_refl _)
          rw [show (dumpsV (Json.obj (m :: ms))).length =
            1 + (dumpsMember m).length + (dumpsMembers ms).length from by
              simp [dumpsV, List.length_append]
              omega]
          omega
    · intro vs hk
      cases vs with
      | nil =>
        rw [show (dumpsItems ([] : List Json)).length = 1 from rfl]
        simp [lsize]
      | cons v vs =>
        simp only [lsize] at hk ⊢
        have hpv := jsize_pos v
        have hpvs := lsize_pos vs
        have hbv : jsize v ≤ 2 * (dumpsV v).length :=
          (ih (jsize v) (by omega)).1 v (le_refl _)
        have hbvs : lsize vs ≤ 2 * (dumpsItems vs).length :=
          (ih (lsize vs) (by omega)).2.1 vs (le_refl _)
        rw [show (dumpsItems (v :: vs)).length =
          1 + (dumpsV v).length + (dumpsItems vs).length from by
            simp [dumpsItems, List.length_append]
            omega]
        omega
    · intro ms hk
      cases ms with
      | nil =>
        rw [show (dumpsMembers ([] : List (Str × Json))).length = 1 from rfl]
        simp [msize]
      | cons m ms =>
        simp only [msize] at hk ⊢
        have hpm := memsize_pos m
        have hpms := msize_pos ms
        have hbm : memsize m ≤ 2 * (dumpsMember m).length :=
          (ih (memsize m) (by omega)).2.2.2 m (le_refl _)
        have hbms : msize ms ≤ 2 * (dumpsMembers ms).length :=
          (ih (msize ms) (by omega)).2.2.1 ms (le_refl _)
        rw [show (dumpsMembers (m :: ms)).length =
          1 + (dumpsMember m).length + (dumpsMembers ms).length from by
            simp [dumpsMembers, List.length_append]
            omega]
        omega
    · intro m hk
      obtain ⟨ky, v⟩ := m
      simp only [memsize] at hk ⊢
      have hpv := jsize_pos v
      have hbv : jsize v ≤ 2 * (dumpsV v).length :=
        (ih (jsize v) (by omega)).1 v (le_refl _)
      rw [show (dumpsMember (ky, v)).length = ky.length + 3 + (dumpsV v).length from by
        simp [dumpsMember, List.length_append]
        omega]
      omega

theorem loads_dumps (v : Json) (h : niceJson v = true) : loads (dumpsV v) = some v := by
  unfold loads
  have hsz : jsize v ≤ 2 * (dumpsV v).length + 2 := by
    have := (sizes_le_dumps (jsize v)).1 v (le_refl _)
    omega
  have hrt := (parse_dumps (2 * (dumpsV v).length + 2)).1 v [] h rfl hsz
  rw [List.append_nil] at hrt
  rw [hrt]

theorem strStarts_append (p : Str) : ∀ rest : Str, strStarts p (p ++ rest) = true := by
  induction p with
  | nil => intro rest; rfl
  | cons c cs ih =>
    intro rest
    simp only [List.cons_append, strStarts, beq_self_eq_true, Bool.true_and]
    exact ih rest

theorem strEnds_append (pat pre : Str) : strEnds pat (pre ++ pat) = true := by
  unfold strEnds
  rw [List.reverse_append]
  exact strStarts_append pat.reverse pre.reverse

theorem pyStrip_wrapFence (s : Str) : pyStrip (wrapFence s) = wrapFence s := by
  have h1 : wrapFence s =
      '`' :: '`' :: '`' :: 'j' :: 's' :: 'o' :: 'n' :: '\n' :: (s ++ '\n' :: strOf "```") := rfl
  have hrev : ('`' :: '`' :: '`' :: 'j' :: 's' :: 'o' :: 'n' :: '\n' ::
      (s ++ '\n' :: strOf "```")).reverse =
      '`' :: '`' :: '`' :: '\n' :: (s.reverse ++
        '\n' :: 'n' :: 'o' :: 's' :: 'j' :: '`' :: '`' :: ['`']) := by
    rw [show ('`' :: '`' :: '`' :: 'j' :: 's' :: 'o' :: 'n' :: '\n' ::
      (s ++ '\n' :: strOf "```")) =
      (['`', '`', '`', 'j', 's', 'o', 'n', '\n'] ++ s) ++ ('\n' :: strOf "```") from by
        simp]
    rw [List.reverse_append, List.reverse_append]
    rw [show ('\n' :: strOf "```").reverse = ['`', '`', '`', '\n'] from rfl]
    rw [show (['`', '`', '`', 'j', 's', 'o', 'n', '\n'] : Str).reverse =
      ['\n', 'n', 'o', 's', 'j', '`', '`', '`'] from rfl]
    simp
  unfold pyStrip
  rw [h1]
  rw [List.dropWhile_cons_of_neg (by decide)]
  rw [hrev]
  rw [List.dropWhile_cons_of_neg (by decide)]
  rw [← hrev, List.reverse_reverse]

theorem stripFence_wrapFence (s : Str) : stripFence (wrapFence s) = s := by
  have hstarts : strStarts (strOf "```") (wrapFence s) = true := rfl
  have hends : strEnds (strOf "```") (wrapFence s) = true := by
    rw [show wrapFence s = (strOf "```json" ++ '\n' :: s ++ ['\n']) ++ strOf "```" from by
      simp [wrapFence]]
    exact strEnds_append _ _
  unfold stripFence
  rw [if_pos (by rw [hstarts, hends]; rfl)]
  simp only [pyStrip_wrapFence]
  rw [if_pos (show strStarts (strOf "```json" ++ ['\n']) (wrapFence s) = true from rfl)]
  rw [show (wrapFence s).drop 8 = s ++ '\n' :: strOf "```" from rfl]
  rw [if_pos (strEnds_append ('\n' :: strOf "```") s)]
  rw [show (s ++ '\n' :: strOf "```").length - 4 = s.length from by
    rw [List.length_append, show ('\n' :: strOf "```").length = 4 from rfl]
    omega]
  rw [List.take_left]

theorem stripFence_not_fenced (content : Str)
    (h : strStarts (strOf "```") content = false) : stripFence content = content := by
  unfold stripFence
  rw [h]
  simp

theorem unwrapData_envelope (status : Str) (P err : Json) :
    unwrapData (envelope status P err) = P := rfl

theorem unwrapData_no_data (P : Json)
    (hnd : ∀ kvs, P = Json.obj kvs → dictGet kvs (strOf "data") = none) :
    unwrapData P = P := by
  cases P with
  | obj kvs =>
    simp only [unwrapData, hnd kvs rfl]
  | null => rfl
  | bool b => rfl
  | num n => rfl
  | str s => rfl
  | arr xs => rfl

theorem niceJson_envelope (status : Str) (P err : Json) (hs : niceStr status = true)
    (hP : niceJson P = true) (he : niceJson err = true) :
    niceJson (envelope status P err) = true := by
  simp only [envelope, niceJson, niceObj]
  rw [hs, hP, he]
  decide

def c5Payload : Json := Json.obj [(strOf "data", Json.num 5)]

/-- Claim C5 (counterexample): for the inner payload `{"data": 5}`, the
fenced + enveloped response unwraps to `{"data": 5}` itself, while the bare
response unwraps to `5` — the envelope extraction fires a second time on the
payload's own `data` key, so the two structured results differ. -/
theorem c5_data_key_collision :
    pipeline (wrapFence (dumpsV (envelope (strOf "success") c5Payload Json.null))) =
      some c5Payload ∧
    pipeline (dumpsV c5Payload) = some (Json.num 5) ∧
    some c5Payload ≠ some (Json.num 5) := by
  refine ⟨rfl, rfl, ?_⟩
  intro h
  injection h with h2
  exact Json.noConfusion h2

/-- Claim C5 (amended): for every inner payload that is NOT an object with a
top-level "data" key (and whose strings need no escaping), a response fenced
in a code block and wrapped in the `{status, data, error}` envelope unwraps
to exactly the same structured result as the bare payload response. -/
theorem c5_unwrap_equivalence (P err : Json) (status : Str)
    (hP : niceJson P = true) (hs : niceStr status = true) (he : niceJson err = true)
    (hnd : ∀ kvs, P = Json.obj kvs → dictGet kvs (strOf "data") = none) :
    pipeline (wrapFence (dumpsV (envelope status P err))) = some P ∧
    pipeline (dumpsV P) = some P := by
  constructor
  · unfold pipeline
    rw [stripFence_wrapFence]
    rw [loads_dumps _ (niceJson_envelope status P err hs hP he)]
    simp only [Option.map_some']
    rw [unwrapData_envelope]
  · unfold pipeline
    obtain ⟨c, cs, hc, _, hne⟩ := dumpsV_head P
    have hb : strStarts (strOf "```") (dumpsV P) = false := by
      rw [hc]
      have hcc : ('`' == c) = false := beq_eq_false_iff_ne.mpr (fun h => hne h.symm)
      show (('`' == c) && strStarts ['`', '`'] cs) = false
      rw [hcc]
      rfl
    rw [stripFence_not_fenced _ hb, loads_dumps P hP]
    simp only [Option.map_some']
    rw [unwrapData_no_data P hnd]

def c5W : Json :=
  Json.obj [(strOf "account_number", Json.str (strOf "00001234")),
            (strOf "total_fees", Json.num 0)]

/-- Claim C5 witness: the amended theorem at a concrete statement-like
payload. -/
theorem c5_unwrap_equivalence_witness :
    pipeline (wrapFence (dumpsV (envelope (strOf "success") c5W Json.null))) = some c5W ∧
    pipeline (dumpsV c5W) = some c5W :=
  c5_unwrap_equivalence c5W Json.null (strOf "success") (by decide) (by decide) (by decide)
    (fun kvs h => by cases h; rfl)

end TaxTools
